import Mathlib

/-!
Verification of the RAG FAQ assistant backend (ingest.py, vectorstore.py,
server.py) through a shallow embedding in Lean 4.

Modelling conventions:
- Python lists become Lean `List`s; machine floats used for embeddings are
  modelled by exact rationals (`ℚ`).
- The embedding backends (sentence-transformers / Gemini), PDF extraction and
  HTML text extraction are external collaborators; they appear as function
  parameters (`embed`, `decode`, `pdfText`, `htmlText`).
- The persisted pair of files (`faiss.index`, `metadata.pkl`) is modelled by a
  `Disk` record whose components can be absent, unreadable (corrupt) or good.
- Fallible Python code returns `Except PyError`; a Python function that ends
  without `return <value>` yields the return value `none : Option Nat`.
- The `while` loop of `chunk_text` is embedded with explicit fuel; the fuel
  `tokens.length + 1` is proved sufficient whenever `overlap < chunk_size`.
-/

/-! ## ingest.py — chunking -/

/-- Python slice `xs[i : i + n]`. -/
def pySlice {α : Type} (xs : List α) (i n : Nat) : List α :=
  (xs.drop i).take n

/-- The body of the `while i < len(tokens)` loop of `chunk_text`
(src/backend/ingest.py lines 29-32), with explicit fuel.  Each fuel unit pays
for one iteration; `none` means the fuel ran out before the loop exited. -/
def chunkLoop {α : Type} (tokens : List α) (chunk_size overlap : Nat) :
    Nat → Nat → Option (List (List α))
  | 0, i => if i < tokens.length then none else some []
  | fuel + 1, i =>
    if i < tokens.length then
      (chunkLoop tokens chunk_size overlap fuel (i + (chunk_size - overlap))).map
        (fun rest => pySlice tokens i chunk_size :: rest)
    else
      some []

/-- Token-level `chunk_text`: the loop started at `i = 0`, with fuel
`tokens.length + 1` (proved sufficient below whenever `overlap < chunk_size`). -/
def chunkTokens {α : Type} (tokens : List α) (chunk_size overlap : Nat) :
    Option (List (List α)) :=
  chunkLoop tokens chunk_size overlap (tokens.length + 1) 0

/-- Python `str.isspace`-style whitespace recognised by `\s` on ASCII text. -/
def isPySpace (c : Char) : Bool :=
  c = ' ' || c = '\t' || c = '\n' || c = '\r' || c = Char.ofNat 11 || c = Char.ofNat 12

/-- Python `text.split()` — split on whitespace runs, dropping empty pieces.
Implemented by direct recursion over the characters (`cur` is the current
word, reversed) so that it evaluates by kernel reduction. -/
def pyWordsAux : List Char → List Char → List String
  | [], cur => if cur = [] then [] else [String.mk cur.reverse]
  | c :: rest, cur =>
    if isPySpace c then
      if cur = [] then pyWordsAux rest []
      else String.mk cur.reverse :: pyWordsAux rest []
    else pyWordsAux rest (c :: cur)

def pyWords (s : String) : List String :=
  pyWordsAux s.toList []

/-- Embedding of `clean_text` (src/backend/ingest.py lines 20-22): collapse every whitespace
run to a single space and strip the ends; equivalently, rejoin the
whitespace-separated words with single spaces. -/
def clean_text (s : String) : String :=
  String.intercalate " " (pyWords s)

/-- Embedding of `chunk_text` (src/backend/ingest.py lines 25-33): tokens are
`text.split()`, each chunk is `" ".join(tokens[i : i + chunk_size])`. -/
def chunk_text (text : String) (chunk_size overlap : Nat) : Option (List String) :=
  (chunkTokens (pyWords text) chunk_size overlap).map
    (fun cs => cs.map (fun c => String.intercalate " " c))

/-! Helper lemmas about the chunk loop. -/

theorem chunkLoop_exit {α : Type} (tokens : List α) (cs ov fuel i : Nat)
    (h : ¬ i < tokens.length) : chunkLoop tokens cs ov fuel i = some [] := by
  cases fuel with
  | zero => simp [chunkLoop, h]
  | succ n => simp [chunkLoop, h]

theorem chunkLoop_step {α : Type} (tokens : List α) (cs ov fuel i : Nat)
    (h : i < tokens.length) :
    chunkLoop tokens cs ov (fuel + 1) i =
      (chunkLoop tokens cs ov fuel (i + (cs - ov))).map
        (fun rest => pySlice tokens i cs :: rest) := by
  simp [chunkLoop, h]

/-- The fuel `tokens.length - i + 1` suffices whenever the step
`chunk_size - overlap` is positive. -/
theorem chunkLoop_isSome {α : Type} (tokens : List α) (cs ov : Nat)
    (hstep : 0 < cs - ov) :
    ∀ fuel i, tokens.length - i < fuel ∨ tokens.length ≤ i →
      (chunkLoop tokens cs ov fuel i).isSome := by
  intro fuel
  induction fuel with
  | zero =>
    intro i hi
    have hle : tokens.length ≤ i := by omega
    rw [chunkLoop_exit tokens cs ov 0 i (by omega)]
    simp
  | succ n ih =>
    intro i hi
    by_cases h : i < tokens.length
    · rw [chunkLoop_step tokens cs ov n i h]
      have := ih (i + (cs - ov)) (by omega)
      cases hsome : chunkLoop tokens cs ov n (i + (cs - ov)) with
      | none => rw [hsome] at this; simp at this
      | some rest => simp
    · rw [chunkLoop_exit tokens cs ov (n + 1) i h]; simp

theorem chunkTokens_isSome {α : Type} (tokens : List α) (cs ov : Nat)
    (h : ov < cs) : (chunkTokens tokens cs ov).isSome := by
  exact chunkLoop_isSome tokens cs ov (by omega) (tokens.length + 1) 0 (by omega)

/-- A token whose position lies inside the window `[i, i + n)` is a member of
the slice `tokens[i : i + n]`. -/
theorem getD_mem_pySlice {α : Type} (xs : List α) (d₀ : α) (i n j : Nat)
    (h1 : i ≤ j) (h2 : j < i + n) (h3 : j < xs.length) :
    xs.getD j d₀ ∈ pySlice xs i n := by
  have hd : j - i < (xs.drop i).length := by simp; omega
  have ht : j - i < ((xs.drop i).take n).length := by simp; omega
  have hx : ((xs.drop i).take n)[j - i] = xs[j] := by
    rw [List.getElem_take, List.getElem_drop]
    congr 1
    omega
  have hmem := List.getElem_mem ht
  rw [hx, ← List.getD_eq_getElem xs d₀ h3] at hmem
  exact hmem

/-- Every token position at or beyond the loop counter is covered by some
chunk the loop produces, provided the step is positive and bounded by the
window. -/
theorem chunkLoop_coverage {α : Type} (tokens : List α) (d₀ : α) (cs ov : Nat)
    (hov : ov < cs) :
    ∀ fuel i chunks, chunkLoop tokens cs ov fuel i = some chunks →
      ∀ j, i ≤ j → j < tokens.length → ∃ c ∈ chunks, tokens.getD j d₀ ∈ c := by
  intro fuel
  induction fuel with
  | zero =>
    intro i chunks hrun j hij hj
    by_cases h : i < tokens.length
    · simp [chunkLoop, h] at hrun
    · omega
  | succ m ih =>
    intro i chunks hrun j hij hj
    by_cases h : i < tokens.length
    · rw [chunkLoop_step tokens cs ov m i h] at hrun
      cases hrec : chunkLoop tokens cs ov m (i + (cs - ov)) with
      | none => rw [hrec] at hrun; simp at hrun
      | some rest =>
        rw [hrec] at hrun
        simp at hrun
        subst hrun
        by_cases hin : j < i + cs
        · exact ⟨pySlice tokens i cs, List.mem_cons_self _ _,
            getD_mem_pySlice tokens d₀ i cs j hij hin hj⟩
        · obtain ⟨c, hc, hmem⟩ := ih (i + (cs - ov)) rest hrec j (by omega) hj
          exact ⟨c, List.mem_cons_of_mem _ hc, hmem⟩
    · rw [chunkLoop_exit tokens cs ov (m + 1) i h] at hrun
      omega

/-! ## vectorstore.py — data model -/

/-- Squared L2 distance between two vectors, as FAISS `IndexFlatL2` uses. -/
def l2dist (u v : List ℚ) : ℚ :=
  ((u.zip v).map (fun p => (p.1 - p.2) ^ 2)).sum

/-- A FAISS flat index: the declared dimension and the stored vectors in
insertion order (`ntotal` is the number of stored vectors). -/
structure FaissIndex where
  dim : Nat
  vecs : List (List ℚ)
deriving DecidableEq

def FaissIndex.ntotal (idx : FaissIndex) : Nat := idx.vecs.length

/-- The pickled metadata table: `{"ids": [...], "docs": [(doc_id, chunk), ...]}`. -/
structure Meta where
  ids : List Nat
  docs : List (String × String)
deriving DecidableEq

/-- One persisted file: missing, present but unreadable, or readable. -/
inductive PFile (α : Type) where
  | absent
  | corrupt
  | good (val : α)
deriving DecidableEq

def PFile.isAbsent {α : Type} : PFile α → Bool
  | .absent => true
  | _ => false

/-- The persisted state: the vector-index file and the metadata file. -/
structure Disk where
  vstore : PFile FaissIndex
  metadata : PFile Meta
deriving DecidableEq

/-- The state before any ingestion: neither file exists. -/
def emptyDisk : Disk := ⟨.absent, .absent⟩

/-- Exceptions the embedded code can raise. -/
inductive PyError where
  | fileNotFound
  /-- `faiss.read_index` / `pickle.load` raised outside any `try` block. -/
  | loadError
  /-- a call passed a keyword argument the callee does not declare. -/
  | typeError
deriving DecidableEq

def describeError : PyError → String
  | .fileNotFound => "FileNotFoundError"
  | .loadError => "UnpicklingError"
  | .typeError => "TypeError"

/-- Number of vectors held by the persisted index file (0 when unreadable). -/
def Disk.ntotal (d : Disk) : Nat :=
  match d.vstore with
  | .good idx => idx.vecs.length
  | _ => 0

/-- States the store itself produces: whenever both files are readable their
lengths agree, and a readable index file never coexists with a missing
metadata file (the code always writes the two files together). -/
def DiskWF (d : Disk) : Prop :=
  (∀ idx meta, d.vstore = .good idx → d.metadata = .good meta →
    meta.docs.length = idx.vecs.length) ∧
  (∀ idx, d.vstore = .good idx → d.metadata ≠ .absent)

/-! ## vectorstore.py — operations -/

/-- Embedding of `load_index` (src/backend/vectorstore.py lines 108-114): raise
`FileNotFoundError` when either file is missing, otherwise read both
(a corrupt file makes the read raise). -/
def load_index (d : Disk) : Except PyError (FaissIndex × Meta) :=
  if d.vstore.isAbsent || d.metadata.isAbsent then
    .error .fileNotFound
  else
    match d.vstore, d.metadata with
    | .good index, .good meta => .ok (index, meta)
    | _, _ => .error .loadError

/-- Embedding of `add_or_create_faiss_index` (src/backend/vectorstore.py lines 47-102).
The embedder is a parameter; the result is the persisted state after the call
together with the Python return value (`none` models Python's `None` — the
function has no `return <value>` on its normal paths). -/
def add_or_create_faiss_index (embed : String → List ℚ)
    (new_docs : List (String × String)) (d : Disk) :
    Except PyError (Disk × Option Nat) :=
  if new_docs.isEmpty then
    -- "No documents provided to index." — bare `return`
    .ok (d, none)
  else
    let texts := new_docs.map (fun p => p.2)
    let vecs := texts.map embed
    if !d.vstore.isAbsent && !d.metadata.isAbsent then
      match d.vstore, d.metadata with
      | .good index, .good meta =>
        -- load succeeded: index.add(vecs); extend ids and docs in lockstep
        let index' : FaissIndex := ⟨index.dim, index.vecs ++ vecs⟩
        let new_ids :=
          if meta.ids ≠ [] then
            List.range' (meta.ids.foldl Nat.max 0 + 1) new_docs.length
          else
            List.range new_docs.length
        let meta' : Meta := ⟨meta.ids ++ new_ids, meta.docs ++ new_docs⟩
        .ok (⟨.good index', .good meta'⟩, none)
      | _, _ =>
        -- the `except` branch retries as
        -- `add_or_create_faiss_index(new_docs, force_rebuild=True)`,
        -- but the function declares no `force_rebuild` parameter, so the
        -- recursive call raises TypeError before rebuilding anything.
        .error .typeError
    else
      -- create a brand new index: IndexFlatL2(dim); index.add(vecs)
      let dim := (vecs.headD []).length
      let index : FaissIndex := ⟨dim, vecs⟩
      let meta : Meta := ⟨List.range new_docs.length, new_docs⟩
      .ok (⟨.good index, .good meta⟩, none)

/-- Comparison used to model FAISS nearest-neighbor retrieval: slot `i` ranks
before slot `j` when its vector is at most as far from the query. -/
def distRank (idx : FaissIndex) (q : List ℚ) (i j : Nat) : Prop :=
  l2dist q (idx.vecs.getD i []) ≤ l2dist q (idx.vecs.getD j [])

instance (idx : FaissIndex) (q : List ℚ) : DecidableRel (distRank idx q) :=
  fun _ _ => inferInstanceAs (Decidable (_ ≤ _))

instance (idx : FaissIndex) (q : List ℚ) : IsTotal Nat (distRank idx q) :=
  ⟨fun _ _ => le_total _ _⟩

instance (idx : FaissIndex) (q : List ℚ) : IsTrans Nat (distRank idx q) :=
  ⟨fun _ _ _ => le_trans⟩

/-- Model of `index.search(q_vec, k)[1][0]` on a flat L2 index: the slot
numbers ordered by ascending distance to the query, truncated to `k`, and
padded with `-1` to exactly `k` entries when fewer than `k` vectors exist. -/
def faissSearch (idx : FaissIndex) (q : List ℚ) (k : Nat) : List Int :=
  let ranked := List.insertionSort (distRank idx q) (List.range idx.vecs.length)
  let top := ranked.take k
  top.map Int.ofNat ++ List.replicate (k - top.length) (-1)

/-- The slot filter of `search` (src/backend/vectorstore.py lines 123-126):
keep `idx >= 0 and idx < len(meta["docs"])`, as slot numbers. -/
def searchSlots (idx : FaissIndex) (meta : Meta) (q : List ℚ) (k : Nat) : List Nat :=
  (faissSearch idx q k).filterMap
    (fun i => if 0 ≤ i ∧ i < (meta.docs.length : Int) then some i.toNat else none)

/-- Embedding of `search` (src/backend/vectorstore.py lines 117-127).  Note the source
function has exactly the parameters `query` and `top_k` — there is no
re-ranking flag — and passes `top_k` unchanged to `index.search`. -/
def search (embed : String → List ℚ) (d : Disk) (query : String) (top_k : Nat) :
    Except PyError (List String) :=
  match load_index d with
  | .error e => .error e
  | .ok (index, meta) =>
    let q_vec := embed query
    .ok ((searchSlots index meta q_vec top_k).map
      (fun s => (meta.docs.getD s ("", "")).2))

/-! ## server.py — the /query boundary -/

structure QueryResponse where
  answer : String
  sources : List String
deriving DecidableEq

def emptyKbMessage : String :=
  "The knowledge base is empty. Please upload documents first."

/-- The `/query` endpoint (src/backend/server.py lines 81-125).  The
generation backends (Gemini / local gpt2) are abstracted into the `generate`
parameter applied to the prompt the endpoint builds; the retrieval part and
both `except` arms are embedded from the source. -/
def query (embed : String → List ℚ) (generate : String → String) (d : Disk)
    (question : String) (top_k : Nat) : QueryResponse :=
  match search embed d question top_k with
  | .error .fileNotFound => ⟨emptyKbMessage, []⟩
  | .error e => ⟨"Error during document search: " ++ describeError e, []⟩
  | .ok retrieved_chunks =>
    let context := String.intercalate "\n\n" retrieved_chunks
    let prompt := "Based on the following context, answer the question.\n\nContext:\n"
      ++ context ++ "\n\nQuestion:\n" ++ question ++ "\n\nAnswer:"
    ⟨generate prompt, retrieved_chunks⟩

/-! ## ingest.py — upload processing -/

/-- Python `str.rfind(c)` on an exploded string: the last index holding `c`. -/
def pyRfind (cs : List Char) (c : Char) : Option Nat :=
  (cs.enum.filterMap (fun p => if p.2 = c then some p.1 else none)).getLast?

/-- The final path component, as `pathlib` takes it: the characters after
the last `'/'`. -/
def pathNameAux : List Char → List Char → List Char
  | [], cur => cur.reverse
  | c :: rest, cur => if c = '/' then pathNameAux rest [] else pathNameAux rest (c :: cur)

def pathName (s : String) : String :=
  String.mk (pathNameAux s.toList [])

/-- Python `str.lower()` on ASCII names. -/
def pyLower (s : String) : String :=
  String.mk (s.toList.map Char.toLower)

/-- Embedding of `Path(s).suffix`: the part of the name from its last dot on, when that dot
is neither the first nor the last character of the name. -/
def pySuffix (s : String) : String :=
  let name := (pathName s).toList
  match pyRfind name '.' with
  | some i => if 0 < i ∧ i < name.length - 1 then String.mk (name.drop i) else ""
  | none => ""

/-- The extraction dispatch of `process_and_index_content`
(src/backend/ingest.py lines 44-55): `.txt`/`.md` are decoded, `.pdf` goes
through pdfminer, `.html`/`.htm` through BeautifulSoup; anything else is
unsupported (`none`). -/
def extractedText {β : Type} (decode pdfText htmlText : β → String)
    (ext : String) (b : β) : Option String :=
  if ext = ".txt" || ext = ".md" then some (decode b)
  else if ext = ".pdf" then some (pdfText b)
  else if ext = ".html" || ext = ".htm" then some (htmlText b)
  else none

/-- The id-tagging loop of `process_and_index_content`
(src/backend/ingest.py lines 64-66): pair each chunk with
`f"{filename}_chunk_{idx}"`. -/
def mkDocs (filename : String) (chunks : List String) : List (String × String) :=
  chunks.enum.map (fun p => (filename ++ ("_chunk_" ++ toString p.1), p.2))

/-- Embedding of `process_and_index_content` (src/backend/ingest.py lines 37-70).  The
`chunk_text` call uses the source defaults `chunk_size=800, overlap=100`, for
which the fuel of the embedded loop is proved sufficient (`chunkTokens_isSome`),
so the `getD []` branch is never taken. -/
def process_and_index_content {β : Type} (decode pdfText htmlText : β → String)
    (embed : String → List ℚ) (filename : String) (file_bytes : β) (d : Disk) :
    Except PyError (Disk × (Bool × String)) :=
  let file_extension := pyLower (pySuffix filename)
  match extractedText decode pdfText htmlText file_extension file_bytes with
  | none => .ok (d, (false, "Unsupported file type: " ++ file_extension))
  | some raw =>
    let text := clean_text raw
    if text = "" then
      .ok (d, (false, "File processed but contained no readable text."))
    else
      let chunks := (chunk_text text 800 100).getD []
      let docs := mkDocs filename chunks
      match add_or_create_faiss_index embed docs d with
      | .error e => .error e
      | .ok (d', _) =>
        .ok (d', (true, "Successfully indexed " ++ toString chunks.length
          ++ " chunks from " ++ filename))

/-- The doc ids recorded in the persisted metadata. -/
def metaDocIds (d : Disk) : List String :=
  match d.metadata with
  | .good meta => meta.docs.map (fun p => p.1)
  | _ => []

/-- Fresh creation: on an empty store, a non-empty batch builds the index and
metadata from exactly the supplied documents. -/
theorem add_fresh (embed : String → List ℚ) (docs : List (String × String))
    (hd : docs ≠ []) :
    add_or_create_faiss_index embed docs emptyDisk =
      .ok (⟨.good ⟨(((docs.map (fun p => p.2)).map embed).headD []).length,
              (docs.map (fun p => p.2)).map embed⟩,
            .good ⟨List.range docs.length, docs⟩⟩, none) := by
  have hne : docs.isEmpty = false := by
    cases docs with
    | nil => simp at hd
    | cons a l => rfl
  simp [add_or_create_faiss_index, emptyDisk, PFile.isAbsent, hne]

/-- A fixed embedder used to instantiate theorems on concrete inputs. -/
def embedC : String → List ℚ := fun _ => [0]

/-- C8: for every input text, `chunk_text` with `overlap` strictly less than
`chunk_size` makes forward progress and terminates, producing a finite chunk
sequence (the loop exits within `tokens.length + 1` iterations). -/
theorem C8_chunk_text_terminates (text : String) (chunk_size overlap : Nat)
    (h : overlap < chunk_size) :
    ∃ chunks, chunk_text text chunk_size overlap = some chunks := by
  obtain ⟨tchunks, ht⟩ :=
    Option.isSome_iff_exists.mp (chunkTokens_isSome (pyWords text) chunk_size overlap h)
  exact ⟨tchunks.map (fun c => String.intercalate " " c), by simp [chunk_text, ht]⟩

theorem C8_chunk_text_terminates_witness :
    ∃ chunks, chunk_text "a b c" 2 1 = some chunks :=
  C8_chunk_text_terminates "a b c" 2 1 (by decide)

/-- C9: chunking is deterministic (a pure function of the text and the
window/overlap parameters) and totally covers the input: with
`overlap < chunk_size`, every token of the cleaned input text occurs in at
least one produced chunk. -/
theorem C9_chunking_deterministic_covering (text : String) (chunk_size overlap : Nat)
    (h : overlap < chunk_size) :
    chunk_text text chunk_size overlap = chunk_text text chunk_size overlap ∧
    ∃ tchunks, chunkTokens (pyWords text) chunk_size overlap = some tchunks ∧
      ∀ j, j < (pyWords text).length →
        ∃ c ∈ tchunks, (pyWords text).getD j "" ∈ c := by
  refine ⟨rfl, ?_⟩
  obtain ⟨tchunks, ht⟩ :=
    Option.isSome_iff_exists.mp (chunkTokens_isSome (pyWords text) chunk_size overlap h)
  refine ⟨tchunks, ht, fun j hj => ?_⟩
  exact chunkLoop_coverage (pyWords text) "" chunk_size overlap h
    ((pyWords text).length + 1) 0 tchunks ht j (Nat.zero_le j) hj

theorem C9_chunking_deterministic_covering_witness :
    chunk_text "a b c" 2 1 = chunk_text "a b c" 2 1 ∧
    ∃ tchunks, chunkTokens (pyWords "a b c") 2 1 = some tchunks ∧
      ∀ j, j < (pyWords "a b c").length →
        ∃ c ∈ tchunks, (pyWords "a b c").getD j "" ∈ c :=
  C9_chunking_deterministic_covering "a b c" 2 1 (by decide)

/-- C5: a 2000-token document chunked with window 800 and overlap 100 yields
exactly 3 chunks, the token windows `[0,800)`, `[700,1500)` and `[1400,2000)`,
and ingesting them records the ids `"{doc_id}_chunk_0"`, `"{doc_id}_chunk_1"`,
`"{doc_id}_chunk_2"` in the persisted metadata. -/
theorem C5_scenario_a (tokens : List String) (fn : String) (embed : String → List ℚ)
    (h : tokens.length = 2000) :
    chunkTokens tokens 800 100 =
      some [pySlice tokens 0 800, pySlice tokens 700 800, pySlice tokens 1400 800] ∧
    ∃ dres, add_or_create_faiss_index embed
        (mkDocs fn (((chunkTokens tokens 800 100).getD []).map
          (fun c => String.intercalate " " c))) emptyDisk = .ok (dres, none) ∧
      metaDocIds dres = [fn ++ "_chunk_0", fn ++ "_chunk_1", fn ++ "_chunk_2"] := by
  have h0 : chunkLoop tokens 800 100 1998 2100 = some [] :=
    chunkLoop_exit tokens 800 100 1998 2100 (by omega)
  have h14 : chunkLoop tokens 800 100 1999 1400 = some [pySlice tokens 1400 800] := by
    have hs := chunkLoop_step tokens 800 100 1998 1400 (by omega)
    rw [show (1400 + (800 - 100) : Nat) = 2100 from by norm_num, h0] at hs
    simpa using hs
  have h7 : chunkLoop tokens 800 100 2000 700 =
      some [pySlice tokens 700 800, pySlice tokens 1400 800] := by
    have hs := chunkLoop_step tokens 800 100 1999 700 (by omega)
    rw [show (700 + (800 - 100) : Nat) = 1400 from by norm_num, h14] at hs
    simpa using hs
  have hmain : chunkTokens tokens 800 100 =
      some [pySlice tokens 0 800, pySlice tokens 700 800, pySlice tokens 1400 800] := by
    unfold chunkTokens
    rw [h]
    have hs := chunkLoop_step tokens 800 100 2000 0 (by omega)
    rw [show (0 + (800 - 100) : Nat) = 700 from by norm_num, h7] at hs
    simpa using hs
  refine ⟨hmain, ?_⟩
  rw [hmain]
  simp only [Option.getD_some, List.map_cons, List.map_nil]
  have hdocs : mkDocs fn [String.intercalate " " (pySlice tokens 0 800),
      String.intercalate " " (pySlice tokens 700 800),
      String.intercalate " " (pySlice tokens 1400 800)] =
    [(fn ++ ("_chunk_" ++ toString (0 : Nat)), String.intercalate " " (pySlice tokens 0 800)),
     (fn ++ ("_chunk_" ++ toString (1 : Nat)), String.intercalate " " (pySlice tokens 700 800)),
     (fn ++ ("_chunk_" ++ toString (2 : Nat)), String.intercalate " " (pySlice tokens 1400 800))] := rfl
  rw [hdocs]
  refine ⟨_, add_fresh embed _ (by simp), ?_⟩
  have h0s : ("_chunk_" ++ toString (0 : Nat)) = "_chunk_0" := by decide
  have h1s : ("_chunk_" ++ toString (1 : Nat)) = "_chunk_1" := by decide
  have h2s : ("_chunk_" ++ toString (2 : Nat)) = "_chunk_2" := by decide
  simp [metaDocIds, h0s, h1s, h2s]

theorem C5_scenario_a_witness :
    chunkTokens (List.replicate 2000 "a") 800 100 =
      some [pySlice (List.replicate 2000 "a") 0 800,
            pySlice (List.replicate 2000 "a") 700 800,
            pySlice (List.replicate 2000 "a") 1400 800] ∧
    ∃ dres, add_or_create_faiss_index embedC
        (mkDocs "d.txt" (((chunkTokens (List.replicate 2000 "a") 800 100).getD []).map
          (fun c => String.intercalate " " c))) emptyDisk = .ok (dres, none) ∧
      metaDocIds dres =
        ["d.txt" ++ "_chunk_0", "d.txt" ++ "_chunk_1", "d.txt" ++ "_chunk_2"] :=
  C5_scenario_a (List.replicate 2000 "a") "d.txt" embedC (List.length_replicate ..)

/-- An empty batch is a no-op: the disk is untouched and `None` is returned. -/
theorem add_empty (embed : String → List ℚ) (d : Disk) :
    add_or_create_faiss_index embed [] d = .ok (d, none) := rfl

/-- Appending to a readable store extends the vectors and both metadata
columns in lockstep. -/
theorem add_existing (embed : String → List ℚ) (new_docs : List (String × String))
    (hnd : new_docs ≠ []) (index : FaissIndex) (meta : Meta) :
    add_or_create_faiss_index embed new_docs ⟨.good index, .good meta⟩ =
      .ok (⟨.good ⟨index.dim, index.vecs ++ (new_docs.map (fun p => p.2)).map embed⟩,
            .good ⟨meta.ids ++
              (if meta.ids ≠ [] then
                List.range' (meta.ids.foldl Nat.max 0 + 1) new_docs.length
               else List.range new_docs.length),
              meta.docs ++ new_docs⟩⟩, none) := by
  have hne : new_docs.isEmpty = false := by
    cases new_docs with
    | nil => simp at hnd
    | cons a l => rfl
  simp [add_or_create_faiss_index, PFile.isAbsent, hne]

/-- Loading under the store invariant returns length-aligned views. -/
theorem load_index_wf (d : Disk) (hwf : DiskWF d) :
    ∀ idx meta, load_index d = .ok (idx, meta) →
      meta.docs.length = idx.vecs.length := by
  intro idx meta hl
  obtain ⟨vs, ms⟩ := d
  cases vs <;> cases ms <;> simp [load_index, PFile.isAbsent] at hl
  case good.good i m =>
    obtain ⟨h1, h2⟩ := hl
    subst h1; subst h2
    exact hwf.1 _ _ rfl rfl

/-- The state the create-from-scratch branch persists. -/
def freshDisk (embed : String → List ℚ) (nd : List (String × String)) : Disk :=
  ⟨.good ⟨(((nd.map (fun p => p.2)).map embed).headD []).length,
      (nd.map (fun p => p.2)).map embed⟩,
    .good ⟨List.range nd.length, nd⟩⟩

/-- When either file is missing, a non-empty batch takes the creation branch. -/
theorem add_fresh_any (embed : String → List ℚ) (nd : List (String × String))
    (hnd : nd ≠ []) (d : Disk)
    (habs : d.vstore.isAbsent = true ∨ d.metadata.isAbsent = true) :
    add_or_create_faiss_index embed nd d = .ok (freshDisk embed nd, none) := by
  have hne : nd.isEmpty = false := by
    cases nd with
    | nil => simp at hnd
    | cons a l => rfl
  have hcond : (!d.vstore.isAbsent && !d.metadata.isAbsent) = false := by
    rcases habs with h | h <;> simp [h]
  simp [add_or_create_faiss_index, hne, hcond, freshDisk]

theorem goodDiskWF (i : FaissIndex) (m : Meta) (hlen : m.docs.length = i.vecs.length) :
    DiskWF ⟨.good i, .good m⟩ := by
  constructor
  · intro i' m' h1 h2
    cases h1; cases h2
    exact hlen
  · intro i' _
    simp

theorem freshDisk_wf (embed : String → List ℚ) (nd : List (String × String)) :
    DiskWF (freshDisk embed nd) :=
  goodDiskWF _ _ (by simp)

/-- C2: every successful `add_or_create_faiss_index` call preserves and
establishes the invariant `len(metadata.docs) == index.ntotal`, the vector
count never shrinks, and it grows by at most the number of supplied chunks;
a successful `load_index` on the resulting state returns length-aligned
views. -/
theorem C2_index_metadata_invariant (embed : String → List ℚ)
    (new_docs : List (String × String)) (d d' : Disk) (r : Option Nat)
    (hwf : DiskWF d)
    (h : add_or_create_faiss_index embed new_docs d = .ok (d', r)) :
    DiskWF d' ∧ d.ntotal ≤ d'.ntotal ∧ d'.ntotal ≤ d.ntotal + new_docs.length ∧
    (new_docs ≠ [] → ∃ idx meta, d'.vstore = .good idx ∧ d'.metadata = .good meta ∧
      meta.docs.length = idx.vecs.length) ∧
    (∀ idx meta, load_index d' = .ok (idx, meta) →
      meta.docs.length = idx.vecs.length) := by
  cases new_docs with
  | nil =>
    rw [add_empty] at h
    have hd : d = d' := congrArg Prod.fst (Except.ok.inj h)
    subst hd
    exact ⟨hwf, le_refl _, by omega, by simp, load_index_wf d hwf⟩
  | cons a l =>
    have hnd : (a :: l) ≠ ([] : List (String × String)) := by simp
    obtain ⟨vs, ms⟩ := d
    by_cases habs : (PFile.isAbsent vs = true ∨ PFile.isAbsent ms = true)
    · rw [add_fresh_any embed (a :: l) hnd ⟨vs, ms⟩ habs] at h
      have hd : freshDisk embed (a :: l) = d' := congrArg Prod.fst (Except.ok.inj h)
      subst hd
      have hnt0 : Disk.ntotal ⟨vs, ms⟩ = 0 := by
        rcases habs with hh | hh
        · cases vs <;> simp_all [PFile.isAbsent, Disk.ntotal]
        · cases vs with
          | good i =>
            exfalso
            apply hwf.2 i rfl
            cases ms <;> simp_all [PFile.isAbsent]
          | absent => rfl
          | corrupt => rfl
      refine ⟨freshDisk_wf embed (a :: l), ?_, ?_, ?_,
        load_index_wf _ (freshDisk_wf embed (a :: l))⟩
      · rw [hnt0]; exact Nat.zero_le _
      · rw [hnt0]; simp [freshDisk, Disk.ntotal]
      · intro _
        exact ⟨_, _, rfl, rfl, by simp [freshDisk]⟩
    · push_neg at habs
      obtain ⟨hv, hm⟩ := habs
      cases vs with
      | absent => simp [PFile.isAbsent] at hv
      | corrupt =>
        cases ms with
        | absent => simp [PFile.isAbsent] at hm
        | corrupt => simp [add_or_create_faiss_index, PFile.isAbsent] at h
        | good m => simp [add_or_create_faiss_index, PFile.isAbsent] at h
      | good i =>
        cases ms with
        | absent => simp [PFile.isAbsent] at hm
        | corrupt => simp [add_or_create_faiss_index, PFile.isAbsent] at h
        | good m =>
          rw [add_existing embed (a :: l) hnd i m] at h
          have hd := congrArg Prod.fst (Except.ok.inj h)
          subst hd
          have hlen := hwf.1 i m rfl rfl
          have hwf' : DiskWF ⟨.good ⟨i.dim, i.vecs ++ ((a :: l).map (fun p => p.2)).map embed⟩,
              .good ⟨m.ids ++
                (if m.ids ≠ [] then
                  List.range' (m.ids.foldl Nat.max 0 + 1) (a :: l).length
                 else List.range (a :: l).length),
                m.docs ++ (a :: l)⟩⟩ :=
            goodDiskWF _ _ (by simp [hlen])
          refine ⟨hwf', ?_, ?_, ?_, load_index_wf _ hwf'⟩
          · simp [Disk.ntotal]
          · simp [Disk.ntotal]
          · intro _
            exact ⟨_, _, rfl, rfl, by simp [hlen]⟩

/-- FAISS `index.search` always hands back exactly `k` entries (padding with `-1`). -/
theorem faissSearch_length (idx : FaissIndex) (q : List ℚ) (k : Nat) :
    (faissSearch idx q k).length = k := by
  unfold faissSearch
  simp only [List.length_append, List.length_map, List.length_replicate, List.length_take,
    List.length_insertionSort, List.length_range]
  omega

/-- The slot filter keeps every in-range slot unchanged. -/
theorem filterMap_slots (dl : Nat) (l : List Nat) (hall : ∀ s ∈ l, s < dl) :
    (l.map Int.ofNat).filterMap
      (fun i => if 0 ≤ i ∧ i < (dl : Int) then some i.toNat else none) = l := by
  induction l with
  | nil => rfl
  | cons a t ih =>
    have ha : a < dl := hall a (List.mem_cons_self a t)
    have hcond : (0 ≤ (Int.ofNat a) ∧ (Int.ofNat a) < (dl : Int)) :=
      ⟨Int.ofNat_nonneg a, by rw [Int.ofNat_eq_natCast]; exact_mod_cast ha⟩
    simp only [List.map_cons, List.filterMap_cons, if_pos hcond]
    rw [ih (fun s hs => hall s (List.mem_cons_of_mem a hs))]
    simp

/-- The `-1` padding entries are all discarded by the slot filter. -/
theorem filterMap_pad (dl m : Nat) :
    ((List.replicate m (-1 : Int)).filterMap
      (fun i => if 0 ≤ i ∧ i < (dl : Int) then some i.toNat else none)) = [] := by
  have hcond : ¬ (0 ≤ (-1 : Int) ∧ (-1 : Int) < (dl : Int)) := by omega
  induction m with
  | zero => rfl
  | succ n ih =>
    rw [List.replicate_succ, List.filterMap_cons, if_neg hcond, ih]

/-- On a length-consistent state, the surviving slots are exactly the first
`k` slots in ascending-distance order. -/
theorem searchSlots_eq (idx : FaissIndex) (meta : Meta) (q : List ℚ) (k : Nat)
    (hwf : meta.docs.length = idx.vecs.length) :
    searchSlots idx meta q k =
      (List.insertionSort (distRank idx q) (List.range idx.vecs.length)).take k := by
  unfold searchSlots faissSearch
  rw [List.filterMap_append]
  have hall : ∀ s ∈ (List.insertionSort (distRank idx q)
      (List.range idx.vecs.length)).take k, s < meta.docs.length := by
    intro s hs
    have h1 : s ∈ List.insertionSort (distRank idx q) (List.range idx.vecs.length) :=
      List.take_subset k _ hs
    have h2 : s ∈ List.range idx.vecs.length := (List.mem_insertionSort _).mp h1
    rw [hwf]
    exact List.mem_range.mp h2
  rw [filterMap_slots _ _ hall, filterMap_pad]
  simp

/-- C6: on a length-consistent state, `search` without any re-ranking returns
exactly `min(top_k, ntotal)` chunk texts, keyed by slots in ascending
embedding-distance order, and every surviving slot lies inside the metadata
table (out-of-range padding slots are discarded rather than crashing). -/
theorem C6_search_no_rerank (idx : FaissIndex) (meta : Meta)
    (embed : String → List ℚ) (q : String) (k : Nat)
    (hwf : meta.docs.length = idx.vecs.length) (_hk : 1 ≤ k) :
    search embed ⟨.good idx, .good meta⟩ q k =
      .ok ((searchSlots idx meta (embed q) k).map
        (fun s => (meta.docs.getD s ("", "")).2)) ∧
    (searchSlots idx meta (embed q) k).length = min k idx.vecs.length ∧
    ((searchSlots idx meta (embed q) k).map
      (fun s => l2dist (embed q) (idx.vecs.getD s []))).Sorted (· ≤ ·) ∧
    ∀ s ∈ searchSlots idx meta (embed q) k, s < meta.docs.length := by
  have hss := searchSlots_eq idx meta (embed q) k hwf
  refine ⟨rfl, ?_, ?_, ?_⟩
  · rw [hss]
    simp [List.length_take, List.length_insertionSort]
  · rw [hss]
    have hsorted : (List.insertionSort (distRank idx (embed q))
        (List.range idx.vecs.length)).Sorted (distRank idx (embed q)) :=
      List.sorted_insertionSort _ _
    have htake : ((List.insertionSort (distRank idx (embed q))
        (List.range idx.vecs.length)).take k).Sorted (distRank idx (embed q)) :=
      List.Pairwise.sublist (List.take_sublist k _) hsorted
    exact List.Pairwise.map _ (fun a b hab => hab) htake
  · intro s hs
    rw [hss] at hs
    have h1 : s ∈ List.insertionSort (distRank idx (embed q))
        (List.range idx.vecs.length) := List.take_subset k _ hs
    have h2 : s ∈ List.range idx.vecs.length := (List.mem_insertionSort _).mp h1
    rw [hwf]
    exact List.mem_range.mp h2

theorem C6_search_no_rerank_witness :
    search embedC ⟨.good ⟨1, [[0], [1]]⟩, .good ⟨[0, 1], [("d", "c0"), ("d", "c1")]⟩⟩ "x" 3 =
      .ok ((searchSlots ⟨1, [[0], [1]]⟩ ⟨[0, 1], [("d", "c0"), ("d", "c1")]⟩ (embedC "x") 3).map
        (fun s => ((⟨[0, 1], [("d", "c0"), ("d", "c1")]⟩ : Meta).docs.getD s ("", "")).2)) ∧
    (searchSlots ⟨1, [[0], [1]]⟩ ⟨[0, 1], [("d", "c0"), ("d", "c1")]⟩ (embedC "x") 3).length =
      min 3 (FaissIndex.mk 1 [[0], [1]]).vecs.length ∧
    ((searchSlots ⟨1, [[0], [1]]⟩ ⟨[0, 1], [("d", "c0"), ("d", "c1")]⟩ (embedC "x") 3).map
      (fun s => l2dist (embedC "x") ((FaissIndex.mk 1 [[0], [1]]).vecs.getD s []))).Sorted (· ≤ ·) ∧
    ∀ s ∈ searchSlots ⟨1, [[0], [1]]⟩ ⟨[0, 1], [("d", "c0"), ("d", "c1")]⟩ (embedC "x") 3,
      s < (Meta.mk [0, 1] [("d", "c0"), ("d", "c1")]).docs.length :=
  C6_search_no_rerank ⟨1, [[0], [1]]⟩ ⟨[0, 1], [("d", "c0"), ("d", "c1")]⟩ embedC "x" 3
    rfl (by omega)

/-- The index of end-to-end scenario B: ten indexed chunks. -/
def idx10 : FaissIndex := ⟨1, (List.range 10).map (fun i => [(i : ℚ)])⟩

def meta10 : Meta := ⟨List.range 10, (List.range 10).map (fun i => ("d", "c" ++ toString i))⟩

def disk10 : Disk := ⟨.good idx10, .good meta10⟩

/-- A one-chunk indexed state. -/
def disk1 : Disk := ⟨.good ⟨1, [[0]]⟩, .good ⟨[0], [("d", "c")]⟩⟩

/-- C1 as stated is false on the code: `search` has no `use_reranking`
parameter, and with ten indexed chunks and `top_k = 4` the candidate list the
code obtains from the index (`D, I = index.search(q_vec, top_k)`) holds 4
entries, not `top_k * 3 = 12`. -/
theorem C1_counterexample :
    (faissSearch idx10 (embedC "x") 4).length = 4 ∧
    ¬ (faissSearch idx10 (embedC "x") 4).length = 12 := by
  have h := faissSearch_length idx10 (embedC "x") 4
  exact ⟨h, by omega⟩

/-- The candidate filter never lengthens the list. -/
theorem searchSlots_length_le (idx : FaissIndex) (meta : Meta) (q : List ℚ) (k : Nat) :
    (searchSlots idx meta q k).length ≤ k := by
  have h1 := List.length_filterMap_le
    (fun i => if 0 ≤ i ∧ i < ((meta.docs.length : Nat) : Int) then some i.toNat else none)
    (faissSearch idx q k)
  rw [faissSearch_length] at h1
  simpa [searchSlots] using h1

/-- C1 amended: `search` exposes no re-ranking flag; it requests exactly
`top_k` candidates from the vector index (never `top_k * 3`) and returns at
most `top_k` chunk texts. -/
theorem C1_search_fetches_top_k (idx : FaissIndex) (qv : List ℚ) (k : Nat) :
    (faissSearch idx qv k).length = k ∧
    ∀ (embed : String → List ℚ) (d : Disk) (q : String) (k' : Nat) (res : List String),
      search embed d q k' = .ok res → res.length ≤ k' := by
  refine ⟨faissSearch_length idx qv k, ?_⟩
  intro embed d q k' res h
  unfold search at h
  cases hl : load_index d with
  | error e => rw [hl] at h; exact absurd h (by simp)
  | ok pair =>
    obtain ⟨index, meta⟩ := pair
    rw [hl] at h
    have hres := Except.ok.inj h
    rw [← hres, List.length_map]
    exact searchSlots_length_le index meta (embed q) k'

theorem C1_search_fetches_top_k_witness :
    (faissSearch idx10 (embedC "x") 4).length = 4 ∧
    ([("c" : String)].length ≤ 1) :=
  ⟨(C1_search_fetches_top_k idx10 (embedC "x") 4).1,
   (C1_search_fetches_top_k idx10 (embedC "x") 4).2 embedC disk1 "x" 1 ["c"] (by rfl)⟩

/-- A persisted state whose metadata file exists but cannot be unpickled. -/
def corruptDisk : Disk := ⟨.good ⟨1, [[0]]⟩, .corrupt⟩

/-- C3 names the intended behavior, but the code's recovery path is broken:
with both files present and the metadata malformed, `add_or_create_faiss_index`
reaches its `except` branch and retries as
`add_or_create_faiss_index(new_docs, force_rebuild=True)`; since the function
declares no `force_rebuild` parameter, a `TypeError` escapes to the caller and
nothing is rebuilt. -/
theorem C3_corruption_path_raises :
    add_or_create_faiss_index embedC [("d", "x")] corruptDisk = .error .typeError := by
  rfl

/-- C4: when either persisted file is absent, `load_index` raises the distinct
`FileNotFoundError`, `search` propagates it, and the `/query` boundary turns
it into the fixed empty-knowledge-base answer with an empty sources list. -/
theorem C4_empty_kb_query (embed : String → List ℚ) (generate : String → String)
    (d : Disk) (question : String) (top_k : Nat)
    (habs : d.vstore.isAbsent = true ∨ d.metadata.isAbsent = true) :
    load_index d = .error .fileNotFound ∧
    search embed d question top_k = .error .fileNotFound ∧
    query embed generate d question top_k = ⟨emptyKbMessage, []⟩ := by
  have hcond : (d.vstore.isAbsent || d.metadata.isAbsent) = true := by
    rcases habs with h | h <;> simp [h]
  have hl : load_index d = .error .fileNotFound := by
    rw [load_index, if_pos hcond]
  have hs : search embed d question top_k = .error .fileNotFound := by
    unfold search
    rw [hl]
  have hq : query embed generate d question top_k = ⟨emptyKbMessage, []⟩ := by
    unfold query
    rw [hs]
  exact ⟨hl, hs, hq⟩

theorem C4_empty_kb_query_witness :
    load_index emptyDisk = .error .fileNotFound ∧
    search embedC emptyDisk "q" 4 = .error .fileNotFound ∧
    query embedC (fun p => p) emptyDisk "q" 4 = ⟨emptyKbMessage, []⟩ :=
  C4_empty_kb_query embedC (fun p => p) emptyDisk "q" 4 (Or.inl rfl)

/-- C7 claims a numeric return value; in the code `add_or_create_faiss_index`
ends every normal path without `return <value>`, so Python returns `None`:
the empty-batch call is indeed a no-op but yields `None`, not `0`. -/
theorem C7_counterexample :
    add_or_create_faiss_index embedC [] emptyDisk = .ok (emptyDisk, none) ∧
    (Except.ok (emptyDisk, (none : Option Nat)) : Except PyError (Disk × Option Nat)) ≠
      .ok (emptyDisk, some 0) := by
  refine ⟨rfl, ?_⟩
  intro h
  have := congrArg (fun x => match x with
    | Except.ok (_, r) => r
    | Except.error _ => none) h
  simp at this

/-- C7 amended: an empty batch is a no-op leaving the state untouched, and
every successful call — empty or not — returns Python `None` (the count added
is only printed, never returned). -/
theorem C7_append_return_value (embed : String → List ℚ)
    (chunks : List (String × String)) (d : Disk) :
    (chunks = [] → add_or_create_faiss_index embed chunks d = .ok (d, none)) ∧
    (∀ d' r, add_or_create_faiss_index embed chunks d = .ok (d', r) → r = none) := by
  constructor
  · intro h
    subst h
    exact add_empty embed d
  · intro d' r h
    cases chunks with
    | nil =>
      rw [add_empty] at h
      exact (congrArg Prod.snd (Except.ok.inj h)).symm
    | cons a l =>
      have hnd : (a :: l) ≠ ([] : List (String × String)) := by simp
      obtain ⟨vs, ms⟩ := d
      by_cases habs : (PFile.isAbsent vs = true ∨ PFile.isAbsent ms = true)
      · rw [add_fresh_any embed (a :: l) hnd ⟨vs, ms⟩ habs] at h
        exact (congrArg Prod.snd (Except.ok.inj h)).symm
      · push_neg at habs
        obtain ⟨hv, hm⟩ := habs
        cases vs with
        | absent => simp [PFile.isAbsent] at hv
        | corrupt =>
          cases ms with
          | absent => simp [PFile.isAbsent] at hm
          | corrupt => simp [add_or_create_faiss_index, PFile.isAbsent] at h
          | good m => simp [add_or_create_faiss_index, PFile.isAbsent] at h
        | good i =>
          cases ms with
          | absent => simp [PFile.isAbsent] at hm
          | corrupt => simp [add_or_create_faiss_index, PFile.isAbsent] at h
          | good m =>
            rw [add_existing embed (a :: l) hnd i m] at h
            exact (congrArg Prod.snd (Except.ok.inj h)).symm

theorem C7_append_return_value_witness :
    add_or_create_faiss_index embedC [] emptyDisk = .ok (emptyDisk, none) :=
  (C7_append_return_value embedC [] emptyDisk).1 rfl

theorem emptyDiskWF : DiskWF emptyDisk := by
  constructor
  · intro i m h1 _
    cases h1
  · intro i h1
    cases h1

theorem C2_index_metadata_invariant_witness :
    DiskWF (freshDisk embedC [("d", "x")]) ∧
    Disk.ntotal emptyDisk ≤ Disk.ntotal (freshDisk embedC [("d", "x")]) ∧
    Disk.ntotal (freshDisk embedC [("d", "x")]) ≤
      Disk.ntotal emptyDisk + [("d", "x")].length ∧
    ([("d", "x")] ≠ ([] : List (String × String)) →
      ∃ idx meta, (freshDisk embedC [("d", "x")]).vstore = .good idx ∧
        (freshDisk embedC [("d", "x")]).metadata = .good meta ∧
        meta.docs.length = idx.vecs.length) ∧
    (∀ idx meta, load_index (freshDisk embedC [("d", "x")]) = .ok (idx, meta) →
      meta.docs.length = idx.vecs.length) :=
  C2_index_metadata_invariant embedC [("d", "x")] emptyDisk
    (freshDisk embedC [("d", "x")]) none
    emptyDiskWF
    (add_fresh_any embedC [("d", "x")] (by simp) emptyDisk (Or.inl rfl))

/-- C10: an upload whose extension is unsupported, or whose extracted text
cleans to the empty string, makes `process_and_index_content` return a
failure pair `(False, message)` and leaves the persisted state untouched; no
embedding is computed (the result does not depend on `embed`) and nothing is
written. -/
theorem C10_rejects_bad_uploads {β : Type} (decode pdfText htmlText : β → String)
    (embed : String → List ℚ) (filename : String) (b : β) (d : Disk) :
    (pyLower (pySuffix filename) ∉ [".txt", ".md", ".pdf", ".html", ".htm"] →
      process_and_index_content decode pdfText htmlText embed filename b d =
        .ok (d, (false, "Unsupported file type: " ++ pyLower (pySuffix filename)))) ∧
    (∀ raw, extractedText decode pdfText htmlText (pyLower (pySuffix filename)) b = some raw →
      clean_text raw = "" →
      process_and_index_content decode pdfText htmlText embed filename b d =
        .ok (d, (false, "File processed but contained no readable text."))) := by
  constructor
  · intro hext
    simp only [List.mem_cons, List.not_mem_nil, or_false] at hext
    push_neg at hext
    obtain ⟨h1, h2, h3, h4, h5⟩ := hext
    have hnone : extractedText decode pdfText htmlText
        (pyLower (pySuffix filename)) b = none := by
      simp [extractedText, h1, h2, h3, h4, h5]
    simp [process_and_index_content, hnone]
  · intro raw hsome hclean
    simp [process_and_index_content, hsome, hclean]

theorem C10_rejects_bad_uploads_witness :
    process_and_index_content (fun s : String => s) (fun s => s) (fun s => s)
      embedC "x.exe" "" emptyDisk =
      .ok (emptyDisk, (false, "Unsupported file type: " ++ pyLower (pySuffix "x.exe"))) ∧
    process_and_index_content (fun _ : String => " ") (fun s => s) (fun s => s)
      embedC "y.txt" "" emptyDisk =
      .ok (emptyDisk, (false, "File processed but contained no readable text.")) :=
  ⟨(C10_rejects_bad_uploads (fun s : String => s) (fun s => s) (fun s => s)
      embedC "x.exe" "" emptyDisk).1 (by decide),
   (C10_rejects_bad_uploads (fun _ : String => " ") (fun s => s) (fun s => s)
      embedC "y.txt" "" emptyDisk).2 " " (by decide) (by decide)⟩
